import Mathlib

/-!
Verification of the Quote Line-Item Engine of `src/app.py`.

The file shallowly embeds the parts of the program the claims are about:
  * the JSON recovery chain used on extraction-service responses
    (`app.py` lines 321-339 and 353-368),
  * the per-source orchestration loop (`app.py` lines 284-386),
  * the pricing computation (`app.py` lines 421-428, 517-528, 544-554),
  * the line-item collection and its row-order bookkeeping
    (`app.py` lines 173-179, 375-382, 465-494),
  * the bulk margin application (`app.py` lines 217-221) and the
    sort-for-display projection (`app.py` lines 411-418).

Currency / percentage arithmetic is modelled over `Rat` (the Python code
computes with floats; every concrete scenario in the claims is exactly
representable).  Fallible Python code (raising `IndexError` / `KeyError`)
is modelled with `Option`.
-/

/-- JSON values, the result type of Python's `json.loads`. -/
inductive Json where
  | null
  | bool (b : Bool)
  | num (q : Rat)
  | str (s : String)
  | arr (elems : List Json)
  | obj (fields : List (String × Json))

/-- Whitespace characters of the JSON grammar (RFC 8259). -/
def isJsonWs (c : Char) : Bool :=
  c = ' ' || c = '\t' || c = '\n' || c = '\r'

/-- Whitespace as matched by the regex class backslash-s and by Python's
`str.strip` (ASCII part). -/
def isPyWs (c : Char) : Bool :=
  c = ' ' || c = '\t' || c = '\n' || c = '\r' ||
  c = Char.ofNat 11 || c = Char.ofNat 12

/-- Drop leading JSON whitespace. -/
def skipWs (cs : List Char) : List Char := cs.dropWhile isJsonWs

/-- Numeric value of a list of decimal digit characters. -/
def natOfDigits (ds : List Char) : Nat :=
  ds.foldl (fun n c => n * 10 + (c.toNat - 48)) 0

/-- Parse a JSON number (sign, integer part without leading zeros,
optional fraction, optional exponent) at the head of the input, returning
the value and the rest.  Models the number production used by
`json.loads`. -/
def parseJsonNumber (cs : List Char) : Option (Rat × List Char) := do
  let (neg, cs1) : Bool × List Char :=
    match cs with
    | '-' :: r => (true, r)
    | _ => (false, cs)
  match cs1 with
  | [] => none
  | c :: _ =>
    if c.isDigit = false then none else
    let ds := cs1.takeWhile (fun d => d.isDigit)
    let rest := cs1.dropWhile (fun d => d.isDigit)
    if c = '0' && ds.length != 1 then none else
    let ip : Rat := (natOfDigits ds : Nat)
    let (v2, rest2) ←
      match rest with
      | '.' :: r2 =>
        let fs := r2.takeWhile (fun d => d.isDigit)
        let r3 := r2.dropWhile (fun d => d.isDigit)
        if fs.length = 0 then none
        else some (ip + ((natOfDigits fs : Rat) / ((10 : Rat) ^ fs.length)), r3)
      | _ => some (ip, rest)
    let (v3, rest3) ←
      match rest2 with
      | e :: r4 =>
        if e = 'e' || e = 'E' then
          let (esign, r5) : Int × List Char :=
            match r4 with
            | '+' :: r6 => (1, r6)
            | '-' :: r6 => (-1, r6)
            | _ => (1, r4)
          let es := r5.takeWhile (fun d => d.isDigit)
          let r7 := r5.dropWhile (fun d => d.isDigit)
          if es.length = 0 then none
          else if esign = 1 then some (v2 * (10 : Rat) ^ natOfDigits es, r7)
          else some (v2 / ((10 : Rat) ^ natOfDigits es), r7)
        else some (v2, rest2)
      | _ => some (v2, rest2)
    some (if neg then -v3 else v3, rest3)

/-- Translate a JSON string escape character.  The `\uXXXX` form accepted
by `json.loads` is not modelled (no input in this development uses it). -/
def escapeChar (c : Char) : Option Char :=
  if c = '"' then some '"'
  else if c = '\\' then some '\\'
  else if c = '/' then some '/'
  else if c = 'b' then some (Char.ofNat 8)
  else if c = 'f' then some (Char.ofNat 12)
  else if c = 'n' then some '\n'
  else if c = 'r' then some '\r'
  else if c = 't' then some '\t'
  else none

/-- Parse the body of a JSON string after the opening quote, returning the
decoded characters and the input after the closing quote. -/
def parseStringBody (fuel : Nat) (cs : List Char) : Option (List Char × List Char) :=
  match fuel, cs with
  | 0, _ => none
  | _, [] => none
  | f + 1, c :: rest =>
    if c = '"' then some ([], rest)
    else if c = '\\' then
      match rest with
      | [] => none
      | e :: rest2 => do
        let ec ← escapeChar e
        let (s, r) ← parseStringBody f rest2
        some (ec :: s, r)
    else if c.toNat < 32 then none
    else do
      let (s, r) ← parseStringBody f rest
      some (c :: s, r)

mutual

/-- Parse one JSON value (after skipping leading whitespace). -/
def parseValue (fuel : Nat) (cs : List Char) : Option (Json × List Char) :=
  match fuel with
  | 0 => none
  | f + 1 =>
    match skipWs cs with
    | [] => none
    | c :: rest =>
      if c = 'n' then
        if rest.take 3 = ['u', 'l', 'l'] then some (Json.null, rest.drop 3) else none
      else if c = 't' then
        if rest.take 3 = ['r', 'u', 'e'] then some (Json.bool true, rest.drop 3) else none
      else if c = 'f' then
        if rest.take 4 = ['a', 'l', 's', 'e'] then some (Json.bool false, rest.drop 4) else none
      else if c = '"' then do
        let (s, r) ← parseStringBody f rest
        some (Json.str (String.mk s), r)
      else if c = '[' then parseArrayRest f (skipWs rest)
      else if c = Char.ofNat 123 then parseObjRest f (skipWs rest)
      else do
        let (q, r) ← parseJsonNumber (c :: rest)
        some (Json.num q, r)

/-- Parse the remainder of a JSON array, positioned after the opening
bracket and any following whitespace. -/
def parseArrayRest (fuel : Nat) (cs : List Char) : Option (Json × List Char) :=
  match fuel with
  | 0 => none
  | f + 1 =>
    match cs with
    | ']' :: r => some (Json.arr [], r)
    | _ => do
      let (v, r1) ← parseValue f cs
      parseArrayTail f [v] r1

/-- Parse array elements after the first one (accumulator is reversed). -/
def parseArrayTail (fuel : Nat) (acc : List Json) (cs : List Char) : Option (Json × List Char) :=
  match fuel with
  | 0 => none
  | f + 1 =>
    match skipWs cs with
    | ']' :: r => some (Json.arr acc.reverse, r)
    | ',' :: r => do
      let (v, r1) ← parseValue f (skipWs r)
      parseArrayTail f (v :: acc) r1
    | _ => none

/-- Parse the remainder of a JSON object, positioned after the opening
brace and any following whitespace. -/
def parseObjRest (fuel : Nat) (cs : List Char) : Option (Json × List Char) :=
  match fuel with
  | 0 => none
  | f + 1 =>
    match cs with
    | c :: r =>
      if c = Char.ofNat 125 then some (Json.obj [], r)
      else if c = '"' then do
        let (k, r1) ← parseStringBody f r
        match skipWs r1 with
        | ':' :: r2 => do
          let (v, r3) ← parseValue f r2
          parseObjTail f [(String.mk k, v)] r3
        | _ => none
      else none
    | [] => none

/-- Parse object members after the first one (accumulator is reversed). -/
def parseObjTail (fuel : Nat) (acc : List (String × Json)) (cs : List Char) :
    Option (Json × List Char) :=
  match fuel with
  | 0 => none
  | f + 1 =>
    match skipWs cs with
    | c :: r =>
      if c = Char.ofNat 125 then some (Json.obj acc.reverse, r)
      else if c = ',' then
        match skipWs r with
        | '"' :: r1 => do
          let (k, r2) ← parseStringBody f r1
          match skipWs r2 with
          | ':' :: r3 => do
            let (v, r4) ← parseValue f r3
            parseObjTail f ((String.mk k, v) :: acc) r4
          | _ => none
        | _ => none
      else none
    | [] => none

end

/-- Strict JSON parse of a whole string: the model of Python's
`json.loads` as called in `app.py` lines 323, 330, 354, 361.  The fuel
`2 * length + 8` dominates the recursion depth of any input. -/
def json_loads (s : String) : Option Json :=
  match parseValue (2 * s.length + 8) s.data with
  | some (v, rest) => if skipWs rest = [] then some v else none
  | none => none

/-- Tests whether `pat` is a prefix of `cs`. -/
def startsWithL : List Char → List Char → Bool
  | [], _ => true
  | _ :: _, [] => false
  | p :: ps, c :: cs => p = c && startsWithL ps cs

/-- Start indices (ascending) of all occurrences of `pat` in `cs`. -/
def occurrencesOf (pat cs : List Char) : List Nat :=
  (List.range (cs.length + 1)).filter (fun i => startsWithL pat (cs.drop i))

/-- Python's `str.strip` (ASCII whitespace). -/
def pyStrip (cs : List Char) : List Char :=
  ((cs.dropWhile isPyWs).reverse.dropWhile isPyWs).reverse

/-- The opening delimiter of the fenced block searched for in
`app.py` lines 326 and 357: three backticks followed by the word json. -/
def fenceOpen : List Char := [Char.ofNat 96, Char.ofNat 96, Char.ofNat 96, 'j', 's', 'o', 'n']

/-- The closing delimiter: three backticks. -/
def fenceClose : List Char := [Char.ofNat 96, Char.ofNat 96, Char.ofNat 96]

/-- Model of `re.search` with the DOTALL pattern of `app.py` line 326
(open fence, whitespace, greedy capture, whitespace, close fence)
followed by `.group(1).strip()`.  The match starts at the leftmost
occurrence of the opening delimiter that is followed by a closing
delimiter; the greedy capture extends to the last closing delimiter of
the remaining text. -/
def extract_json_block (s : String) : Option String :=
  let cs := s.data
  let starts := (occurrencesOf fenceOpen cs).filter
    (fun i => occurrencesOf fenceClose (cs.drop (i + 7)) ≠ [])
  match starts.head? with
  | none => none
  | some i =>
    let r := (cs.drop (i + 7)).dropWhile isPyWs
    match (occurrencesOf fenceClose r).getLast? with
    | none => none
    | some p => some (String.mk (pyStrip (r.take p)))

/-- The recovery chain applied to one extraction-service response,
`app.py` lines 321-339 (and identically lines 352-368): strict parse of
the whole text, then on failure strict parse of the stripped interior of
the fenced json block; `none` means the source is marked failed. -/
def parse_extraction_response (text : String) : Option Json :=
  match json_loads text with
  | some v => some v
  | none =>
    match extract_json_block text with
    | some inner => json_loads inner
    | none => none

/-- Modelled from the spec, section 4.3 step 3 (this stage has no
counterpart in `src/app.py`): the substring between the first opening
square bracket and the last closing square bracket, or, if absent,
between the first opening brace and the last closing brace. -/
def bracket_slice_spec (s : String) : Option String :=
  let cs := s.data
  let slice (o c : Char) : Option String :=
    match (occurrencesOf [o] cs).head? with
    | none => none
    | some i =>
      match (occurrencesOf [c] cs).getLast? with
      | none => none
      | some j => if i ≤ j then some (String.mk ((cs.drop i).take (j + 1 - i))) else none
  match slice '[' ']' with
  | some r => some r
  | none => slice (Char.ofNat 123) (Char.ofNat 125)

/-- Python truthiness of a parsed JSON value (`if extracted_data:`,
`app.py` lines 340 and 369). -/
def py_truthy : Json → Bool
  | Json.null => false
  | Json.bool b => b
  | Json.num q => if q = 0 then false else true
  | Json.str s => if s = "" then false else true
  | Json.arr xs => match xs with | [] => false | _ => true
  | Json.obj kvs => match kvs with | [] => false | _ => true

/-- Elements appended by `all_new_items.extend(extracted_data)`
(`app.py` lines 341 and 370) under Python iteration semantics: a list
yields its elements, a dict its keys, a string its characters; any other
value raises `TypeError` (modelled as `none`), which the surrounding
`except` turns into a per-source failure. -/
def py_extend_elems : Json → Option (List Json)
  | Json.arr xs => some xs
  | Json.obj kvs => some (kvs.map (fun kv => Json.str kv.fst))
  | Json.str s => some (s.data.map (fun c => Json.str (String.mk [c])))
  | _ => none

/-- One input source of an extraction pass: its identifier (the uploaded
file's name, or the literal used for pasted text) and the
extraction-service response text obtained for it. -/
structure SourceDoc where
  name : String
  text : String

/-- Processing of a single source (`app.py` lines 315-344 for a file,
lines 347-373 for pasted text): the rows it contributes and whether it is
recorded as failed. -/
def process_source (d : SourceDoc) : List Json × Bool :=
  match parse_extraction_response d.text with
  | none => ([], true)
  | some v =>
    if py_truthy v then
      match py_extend_elems v with
      | some xs => (xs, false)
      | none => ([], true)
    else ([], false)

/-- The extraction pass over all sources of one press of the process
button (`app.py` lines 284-386): accumulates `all_new_items` and
`failed_files` in order. -/
def process_sources (ds : List SourceDoc) : List Json × List String :=
  ds.foldl (fun acc d =>
    let r := process_source d
    (acc.fst ++ r.fst, acc.snd ++ (if r.snd then [d.name] else []))) ([], [])

/-- Rows contributed by a list of sources. -/
def items_of (ds : List SourceDoc) : List Json :=
  (ds.map (fun d => (process_source d).fst)).flatten

/-- Failed-source identifiers reported for a list of sources. -/
def failed_of (ds : List SourceDoc) : List String :=
  ds.filterMap (fun d => if (process_source d).snd then some d.name else none)

/-- Parse a numeric string the way `pd.to_numeric` does for string cells
(Python float syntax: optional surrounding whitespace, sign, digits with
an optional decimal point, optional exponent).  `none` models the values
that `errors='coerce'` turns into NaN. -/
def parse_py_float (s : String) : Option Rat := do
  let cs := pyStrip s.data
  let (neg, cs1) : Bool × List Char :=
    match cs with
    | '-' :: r => (true, r)
    | '+' :: r => (false, r)
    | _ => (false, cs)
  let ds1 := cs1.takeWhile (fun d => d.isDigit)
  let r1 := cs1.dropWhile (fun d => d.isDigit)
  let (ds2, rest) : List Char × List Char :=
    match r1 with
    | '.' :: r2 => (r2.takeWhile (fun d => d.isDigit), r2.dropWhile (fun d => d.isDigit))
    | _ => ([], r1)
  if ds1.length = 0 && ds2.length = 0 then none else
  let v : Rat := (natOfDigits ds1 : Rat) + (natOfDigits ds2 : Rat) / (10 : Rat) ^ ds2.length
  let v3 : Rat ←
    match rest with
    | [] => some v
    | e :: r4 =>
      if e = 'e' || e = 'E' then
        let (esign, r5) : Int × List Char :=
          match r4 with
          | '+' :: r6 => (1, r6)
          | '-' :: r6 => (-1, r6)
          | _ => (1, r4)
        let es := r5.takeWhile (fun d => d.isDigit)
        let r7 := r5.dropWhile (fun d => d.isDigit)
        if es.length = 0 || r7 ≠ [] then none
        else if esign = 1 then some (v * (10 : Rat) ^ natOfDigits es)
        else some (v / (10 : Rat) ^ natOfDigits es)
      else none
    some (if neg then -v3 else v3)

/-- One cell of the `quote_items` DataFrame: either a value that came
from parsed JSON (or was assigned by the program) or a missing value
(pandas NaN, e.g. a column absent from the source dict). -/
inductive Cell where
  | val (j : Json)
  | missing

/-- Model of `pd.to_numeric(col, errors='coerce').fillna(0)` applied to a
cell (`app.py` lines 422-423, 518-519, 545-546): numbers pass through,
booleans become 0/1, numeric strings are parsed, everything else
(missing, null, unparseable string, nested list/dict) becomes NaN and is
then filled with 0. -/
def to_numeric_fillna0 (c : Cell) : Rat :=
  match c with
  | Cell.missing => 0
  | Cell.val (Json.num q) => q
  | Cell.val (Json.bool b) => if b then 1 else 0
  | Cell.val (Json.str s) => (parse_py_float s).getD 0
  | Cell.val _ => 0

/-- Discounted cost: `COST_PER_UNIT * (1 - DISC / 100)`
(`app.py` lines 424, 520, 547). -/
def cost_after_disc (cost disc : Rat) : Rat := cost * (1 - disc / 100)

/-- Pricing divisor: `1 - MARGIN / 100`, replaced by `0.01` when not
positive (`app.py` lines 425-426, 521-522, 548-549). -/
def margin_divisor (m : Rat) : Rat :=
  if 1 - m / 100 ≤ 0 then 1 / 100 else 1 - m / 100

/-- Unit sell price excluding tax: discounted cost over the pricing
divisor (`app.py` lines 427, 523, 550). -/
def sell_unit_ex_gst (cost disc m : Rat) : Rat :=
  cost_after_disc cost disc / margin_divisor m

/-- Line sell price excluding tax (`app.py` lines 428, 524, 551). -/
def sell_total_ex_gst (cost disc m qty : Rat) : Rat :=
  sell_unit_ex_gst cost disc m * qty

/-- The fixed GST rate (`app.py` lines 526, 552). -/
def gst_rate : Rat := 10

/-- GST amount of a line (`app.py` lines 527, 553). -/
def gst_amount (cost disc m qty : Rat) : Rat :=
  sell_total_ex_gst cost disc m qty * (gst_rate / 100)

/-- Line total including GST (`app.py` lines 528, 554). -/
def sell_total_inc_gst (cost disc m qty : Rat) : Rat :=
  sell_total_ex_gst cost disc m qty + gst_amount cost disc m qty

/-- One row of the `quote_items` DataFrame (`app.py` lines 142-145). -/
structure RowCells where
  TYPE : Cell
  QTY : Cell
  Supplier : Cell
  CAT_NO : Cell
  Description : Cell
  COST_PER_UNIT : Cell
  DISC : Cell
  MARGIN : Cell

/-- The derived pricing columns of one row after numeric coercion.  The
same computation appears three times in the program: for the editable
table (`app.py` lines 421-428), for the on-screen totals (lines 517-528)
and for the final document (lines 544-554). -/
structure PricedRow where
  qty : Rat
  cost : Rat
  disc : Rat
  margin : Rat
  sellUnit : Rat
  sellTotal : Rat
  gstAmt : Rat
  totalInc : Rat
deriving DecidableEq

/-- Numeric coercion plus pricing of one row, as done identically at
`app.py` lines 421-428, 517-528 and 544-554. -/
def price_row (r : RowCells) : PricedRow :=
  let qty := to_numeric_fillna0 r.QTY
  let cost := to_numeric_fillna0 r.COST_PER_UNIT
  let disc := to_numeric_fillna0 r.DISC
  let m := to_numeric_fillna0 r.MARGIN
  { qty := qty
    cost := cost
    disc := disc
    margin := m
    sellUnit := sell_unit_ex_gst cost disc m
    sellTotal := sell_total_ex_gst cost disc m qty
    gstAmt := gst_amount cost disc m qty
    totalInc := sell_total_inc_gst cost disc m qty }

/-- Session state of the line-item collection: the canonical row store
`quote_items` and the manual-order index list `row_order`
(`app.py` lines 141-147). -/
structure QuoteState where
  items : List RowCells
  row_order : List Nat

/-- Cell of the dict built by `json.loads` for column `k`: present value
(last occurrence wins, as in a Python dict) or NaN when the element is
not a dict or lacks the key (`pd.DataFrame(all_new_items)`,
`app.py` line 376). -/
def cell_of (j : Json) (k : String) : Cell :=
  match j with
  | Json.obj kvs =>
    match kvs.reverse.find? (fun kv => kv.fst == k) with
    | some kv => Cell.val kv.snd
    | none => Cell.missing
  | _ => Cell.missing

/-- Row of `new_df` built from one extracted element, after the
column-wide assignments `new_df['DISC'] = 0.0` and
`new_df['MARGIN'] = global margin` (`app.py` lines 376-378). -/
def row_of_json (margin : Rat) (j : Json) : RowCells :=
  { TYPE := cell_of j "TYPE"
    QTY := cell_of j "QTY"
    Supplier := cell_of j "Supplier"
    CAT_NO := cell_of j "CAT_NO"
    Description := cell_of j "Description"
    COST_PER_UNIT := cell_of j "COST_PER_UNIT"
    DISC := Cell.val (Json.num 0)
    MARGIN := Cell.val (Json.num margin) }

/-- The function `update_row_order` (`app.py` lines 173-176): when the
lengths disagree, `row_order` is reset to the identity order. -/
def update_row_order (st : QuoteState) : QuoteState :=
  if st.row_order.length ≠ st.items.length then
    { st with row_order := List.range st.items.length }
  else st

/-- The function `reorder_df` (`app.py` lines 178-179): the displayed row
sequence under manual ordering.  `iloc` indexing is total only when every
entry of `row_order` is in range; out-of-range entries are given a
default here and are excluded by the permutation invariant. -/
def reorder_df (items : List RowCells) (ro : List Nat) : List RowCells :=
  ro.map (fun i => items.getD i
    { TYPE := Cell.missing, QTY := Cell.missing, Supplier := Cell.missing,
      CAT_NO := Cell.missing, Description := Cell.missing,
      COST_PER_UNIT := Cell.missing, DISC := Cell.missing, MARGIN := Cell.missing })

/-- Appending the extraction pass's rows (`app.py` lines 375-382):
concatenate the stamped new rows, run `update_row_order` (which sees the
longer item list and resets `row_order`), then extend `row_order` with
`range(len(row_order), len(quote_items))`. -/
def append_items (newItems : List Json) (margin : Rat) (st : QuoteState) : QuoteState :=
  let items' := st.items ++ newItems.map (row_of_json margin)
  let st1 := update_row_order { items := items', row_order := st.row_order }
  { items := items'
    row_order := st1.row_order ++ List.range' st1.row_order.length (items'.length - st1.row_order.length) }

/-- The freshly-defaulted row inserted by the add-row buttons
(`app.py` lines 466 and 473). -/
def default_row (margin : Rat) : RowCells :=
  { TYPE := Cell.val (Json.str "")
    QTY := Cell.val (Json.num 1)
    Supplier := Cell.val (Json.str "")
    CAT_NO := Cell.val (Json.str "")
    Description := Cell.val (Json.str "")
    COST_PER_UNIT := Cell.val (Json.num 0)
    DISC := Cell.val (Json.num 0)
    MARGIN := Cell.val (Json.num margin) }

/-- The Add Row Above handler (`app.py` lines 465-471): read the
canonical index of the selected displayed row, splice the default row
into `quote_items` at that canonical position, and insert the index
`len(updated_df) - 1` into `row_order` at the selected display position.
`none` models the `IndexError` of `row_order[selected_index]` when the
selected index is out of range. -/
def add_above (sel : Nat) (margin : Rat) (st : QuoteState) : Option QuoteState :=
  if sel < st.row_order.length then
    let idx := st.row_order.getD sel 0
    let items' := st.items.take idx ++ [default_row margin] ++ st.items.drop idx
    some { items := items', row_order := st.row_order.insertIdx sel (items'.length - 1) }
  else none

/-- The Add Row Below handler (`app.py` lines 472-478), analogous with
positions shifted by one. -/
def add_below (sel : Nat) (margin : Rat) (st : QuoteState) : Option QuoteState :=
  if sel < st.row_order.length then
    let idx := st.row_order.getD sel 0
    let items' := st.items.take (idx + 1) ++ [default_row margin] ++ st.items.drop (idx + 1)
    some { items := items', row_order := st.row_order.insertIdx (sel + 1) (items'.length - 1) }
  else none

/-- The Delete Selected Row handler (`app.py` lines 479-486): drop the
row with canonical label `idx`, pop the selected `row_order` entry, then
decrement every remaining entry beyond the deleted index.  `none` models
the `IndexError` / `KeyError` on an invalid selection or label. -/
def delete_row (sel : Nat) (st : QuoteState) : Option QuoteState :=
  if sel < st.row_order.length then
    let idx := st.row_order.getD sel 0
    if idx < st.items.length then
      some { items := st.items.eraseIdx idx
             row_order := (st.row_order.eraseIdx sel).map (fun i => if i < idx then i else i - 1) }
    else none
  else none

/-- The Move Up handler (`app.py` lines 487-490): swap the selected
`row_order` entry with the one above; a guard makes index 0 a no-op. -/
def move_up (sel : Nat) (st : QuoteState) : Option QuoteState :=
  if sel > 0 then
    if sel < st.row_order.length then
      let x := st.row_order.getD sel 0
      let y := st.row_order.getD (sel - 1) 0
      some { st with row_order := (st.row_order.set (sel - 1) x).set sel y }
    else none
  else some st

/-- The Move Down handler (`app.py` lines 491-494): swap the selected
`row_order` entry with the one below; a guard makes the last index a
no-op. -/
def move_down (sel : Nat) (st : QuoteState) : Option QuoteState :=
  if sel < st.row_order.length - 1 then
    let x := st.row_order.getD sel 0
    let y := st.row_order.getD (sel + 1) 0
    some { st with row_order := (st.row_order.set (sel + 1) x).set sel y }
  else some st

/-- The Apply Margin handler (`app.py` lines 217-223): on a non-empty
collection, assign the global margin to the whole MARGIN column; an empty
collection is left untouched (only a warning is shown). -/
def apply_margin (v : Rat) (st : QuoteState) : QuoteState :=
  match st.items with
  | [] => st
  | _ =>
    { st with items := st.items.map (fun r => { r with MARGIN := Cell.val (Json.num v) }) }

/-- Key used when sorting by a column that holds strings (the TYPE and
Supplier columns): the cell's string content. -/
def cell_sort_key (c : Cell) : String :=
  match c with
  | Cell.val (Json.str s) => s
  | _ => ""

/-- Stable sort of the rows by a string key: the model of
`sort_values(by=col, kind="stable")` (`app.py` lines 414 and 416). -/
def sort_items_by (key : RowCells → String) (items : List RowCells) : List RowCells :=
  items.mergeSort (fun a b => decide (key a ≤ key b))

/-- Sort key of the TYPE column. -/
def type_key (r : RowCells) : String := cell_sort_key r.TYPE

/-- Sort key of the Supplier column. -/
def supplier_key (r : RowCells) : String := cell_sort_key r.Supplier

/-- The displayed row sequence for a given sort option
(`app.py` lines 411-418). -/
def display_df (st : QuoteState) (sortOption : String) : List RowCells :=
  if sortOption = "Manual Order" then reorder_df st.items st.row_order
  else if sortOption = "Type" then sort_items_by type_key st.items
  else if sortOption = "Supplier" then sort_items_by supplier_key st.items
  else reorder_df st.items st.row_order

/-- The mutating operations of the collection, for stating the row-order
invariant uniformly. -/
inductive QuoteOp where
  | append (newItems : List Json) (margin : Rat)
  | addAbove (sel : Nat) (margin : Rat)
  | addBelow (sel : Nat) (margin : Rat)
  | deleteRow (sel : Nat)
  | moveUp (sel : Nat)
  | moveDown (sel : Nat)
  | applyMargin (v : Rat)

/-- Run one mutating operation on the session state. -/
def run_op : QuoteOp → QuoteState → Option QuoteState
  | QuoteOp.append newItems margin, st => some (append_items newItems margin st)
  | QuoteOp.addAbove sel margin, st => add_above sel margin st
  | QuoteOp.addBelow sel margin, st => add_below sel margin st
  | QuoteOp.deleteRow sel, st => delete_row sel st
  | QuoteOp.moveUp sel, st => move_up sel st
  | QuoteOp.moveDown sel, st => move_down sel st
  | QuoteOp.applyMargin v, st => some (apply_margin v st)

/-- A concrete line-item row with cost 100, discount 10, margin 20 and
quantity 3, for the pricing scenario. -/
def scenario_row : RowCells :=
  { TYPE := Cell.val (Json.str "A")
    QTY := Cell.val (Json.num 3)
    Supplier := Cell.val (Json.str "S")
    CAT_NO := Cell.val (Json.str "C")
    Description := Cell.val (Json.str "D")
    COST_PER_UNIT := Cell.val (Json.num 100)
    DISC := Cell.val (Json.num 10)
    MARGIN := Cell.val (Json.num 20) }

/-- C1: for a line item with costPerUnit 100, discountPercent 10,
marginPercent 20 and qty 3, the divisor pricing computation yields
costAfterDiscount 90, unitSellExTax 112.50, lineSellExTax 337.50,
taxAmount 33.75 at the fixed 10 percent tax rate, and
lineTotalIncTax 371.25. -/
theorem c1_pricing_scenario :
    cost_after_disc 100 10 = 90 ∧
    (price_row scenario_row).sellUnit = 112.5 ∧
    (price_row scenario_row).sellTotal = 337.5 ∧
    (price_row scenario_row).gstAmt = 33.75 ∧
    (price_row scenario_row).totalInc = 371.25 := by
  refine ⟨by norm_num [cost_after_disc], ?_, ?_, ?_, ?_⟩ <;>
    · simp only [price_row, scenario_row, to_numeric_fillna0, sell_unit_ex_gst,
        sell_total_ex_gst, gst_amount, sell_total_inc_gst, cost_after_disc,
        margin_divisor, gst_rate]
      norm_num

/-- C2: whenever the margin makes the raw divisor `1 - margin / 100`
nonpositive, the pricing computation replaces it by the constant 0.01,
the divisor used is positive (so the division is well defined and the
result finite), and for nonnegative cost and a discount in [0, 100] the
unit sell price is nonnegative. -/
theorem c2_degenerate_margin (cost disc m : Rat)
    (hc : 0 ≤ cost) (hd0 : 0 ≤ disc) (hd1 : disc ≤ 100)
    (hm : 1 - m / 100 ≤ 0) :
    margin_divisor m = 1 / 100 ∧
    0 < margin_divisor m ∧
    0 ≤ sell_unit_ex_gst cost disc m := by
  have hdiv : margin_divisor m = 1 / 100 := if_pos hm
  refine ⟨hdiv, by rw [hdiv]; norm_num, ?_⟩
  have hcad : 0 ≤ cost_after_disc cost disc := by
    have : (0 : Rat) ≤ 1 - disc / 100 := by linarith
    exact mul_nonneg hc this
  have hpos : 0 < margin_divisor m := by rw [hdiv]; norm_num
  exact div_nonneg hcad hpos.le

/-- Witness for C2 at margin exactly 100 with cost 100 and discount 10. -/
theorem c2_degenerate_margin_witness :
    margin_divisor 100 = 1 / 100 ∧
    0 < margin_divisor 100 ∧
    0 ≤ sell_unit_ex_gst 100 10 100 :=
  c2_degenerate_margin 100 10 100 (by norm_num) (by norm_num) (by norm_num) (by norm_num)

/-- C7: moveUp at displayed index 0 and moveDown at the last displayed
index leave the whole session state (items and displayed order) unchanged
and do not raise. -/
theorem c7_move_boundary_noop (st : QuoteState) :
    move_up 0 st = some st ∧
    move_down (st.row_order.length - 1) st = some st := by
  constructor
  · simp [move_up]
  · have h : ¬ (st.row_order.length - 1 < st.row_order.length - 1) := lt_irrefl _
    simp [move_down, h]

/-- C9: on a non-empty collection, applying the global margin sets the
MARGIN cell of every row to the given value, succeeds (returns a state,
with row count and row order untouched), and applying it twice with the
same value is the same as applying it once. -/
theorem c9_apply_margin (v : Rat) (st : QuoteState) (h : st.items ≠ []) :
    (∀ r ∈ (apply_margin v st).items, r.MARGIN = Cell.val (Json.num v)) ∧
    apply_margin v (apply_margin v st) = apply_margin v st ∧
    (apply_margin v st).items.length = st.items.length ∧
    (apply_margin v st).row_order = st.row_order := by
  obtain ⟨its, ro⟩ := st
  cases its with
  | nil => exact absurd rfl h
  | cons a l =>
    refine ⟨?_, ?_, ?_, ?_⟩
    · intro r hr
      simp only [apply_margin] at hr
      obtain ⟨b, -, rfl⟩ := List.mem_map.mp hr
      rfl
    · simp only [apply_margin, List.map_cons, List.map_map]
      rfl
    · simp [apply_margin]
    · simp [apply_margin]

/-- Witness for C9 on a one-row collection with margin 9. -/
theorem c9_apply_margin_witness :
    (∀ r ∈ (apply_margin 9 ⟨[scenario_row], [0]⟩).items, r.MARGIN = Cell.val (Json.num 9)) ∧
    apply_margin 9 (apply_margin 9 ⟨[scenario_row], [0]⟩) = apply_margin 9 ⟨[scenario_row], [0]⟩ ∧
    (apply_margin 9 ⟨[scenario_row], [0]⟩).items.length = (⟨[scenario_row], [0]⟩ : QuoteState).items.length ∧
    (apply_margin 9 ⟨[scenario_row], [0]⟩).row_order = (⟨[scenario_row], [0]⟩ : QuoteState).row_order :=
  c9_apply_margin 9 ⟨[scenario_row], [0]⟩ (by simp)

/-- A stored row distinct from the freshly-defaulted row, for exercising
the insert handlers. -/
def rowWithDesc : RowCells :=
  { (default_row 9) with Description := Cell.val (Json.str "existing") }

/-- C6: evaluating the Add Row Above handler on a one-row collection with
the first (and only) displayed row selected.  The code splices the new
row into `quote_items` at the canonical position but records its
`row_order` index as the appended position `len - 1`, so the displayed
result puts the fresh row BELOW the selected row, not above it; and an
out-of-range selected index raises (modelled by `none`) instead of being
a no-op. -/
theorem c6_add_above_eval :
    add_above 0 9 ⟨[rowWithDesc], [0]⟩ =
      some ⟨[default_row 9, rowWithDesc], [1, 0]⟩ ∧
    reorder_df [default_row 9, rowWithDesc] [1, 0] = [rowWithDesc, default_row 9] ∧
    rowWithDesc ≠ default_row 9 ∧
    add_above 5 9 ⟨[rowWithDesc], [0]⟩ = none := by
  refine ⟨rfl, rfl, ?_, rfl⟩
  intro h
  have hd := congrArg RowCells.Description h
  simp [rowWithDesc, default_row] at hd

/-- A row whose QTY cell holds a non-numeric string, as produced when an
extracted element's QTY field was not a number. -/
def row_qty_text : RowCells :=
  { scenario_row with QTY := Cell.val (Json.str "two boxes") }

/-- C5 counterexample: a line item whose QTY cell is a non-numeric string
is priced with quantity 0, not the claimed default of 1 — the program
coerces QTY with `pd.to_numeric(..., errors='coerce').fillna(0)` exactly
like COST_PER_UNIT (`app.py` lines 422-423). -/
theorem c5_qty_default_counterexample :
    (price_row row_qty_text).qty = 0 ∧ (price_row row_qty_text).qty ≠ 1 := by
  have h : (price_row row_qty_text).qty = 0 := rfl
  exact ⟨h, by rw [h]; norm_num⟩

/-- C5 amended: wherever a line item's quantity or cost is consumed for
pricing, a missing, null, or non-numeric-string QTY defaults to 0 (not
1), and a missing, null, or non-numeric-string COST_PER_UNIT defaults
to 0. -/
theorem c5_numeric_defaults (r : RowCells) :
    (r.QTY = Cell.missing → (price_row r).qty = 0) ∧
    (∀ s, r.QTY = Cell.val (Json.str s) → parse_py_float s = none → (price_row r).qty = 0) ∧
    (r.QTY = Cell.val Json.null → (price_row r).qty = 0) ∧
    (r.COST_PER_UNIT = Cell.missing → (price_row r).cost = 0) ∧
    (∀ s, r.COST_PER_UNIT = Cell.val (Json.str s) → parse_py_float s = none →
      (price_row r).cost = 0) ∧
    (r.COST_PER_UNIT = Cell.val Json.null → (price_row r).cost = 0) := by
  have hq : (price_row r).qty = to_numeric_fillna0 r.QTY := rfl
  have hc : (price_row r).cost = to_numeric_fillna0 r.COST_PER_UNIT := rfl
  refine ⟨?_, ?_, ?_, ?_, ?_, ?_⟩
  · intro h; rw [hq, h]; rfl
  · intro s h hp; rw [hq, h]; simp [to_numeric_fillna0, hp]
  · intro h; rw [hq, h]; rfl
  · intro h; rw [hc, h]; rfl
  · intro s h hp; rw [hc, h]; simp [to_numeric_fillna0, hp]
  · intro h; rw [hc, h]; rfl

/-- A row with a missing QTY cell and a non-numeric COST_PER_UNIT
cell. -/
def row_sparse : RowCells :=
  { scenario_row with QTY := Cell.missing, COST_PER_UNIT := Cell.val (Json.str "n/a") }

/-- Witness for C5 on a concrete sparse row. -/
theorem c5_numeric_defaults_witness :
    (price_row row_sparse).qty = 0 ∧ (price_row row_sparse).cost = 0 :=
  ⟨(c5_numeric_defaults row_sparse).1 rfl,
   (c5_numeric_defaults row_sparse).2.2.2.2.1 "n/a" rfl rfl⟩

/-- C3 counterexample: on the response text `items: [1, 2] thanks` the
program's recovery marks the source failed, even though the claimed third
stage (substring between the first opening and last closing square
bracket) exists and strict-parses; the code has no such stage. -/
theorem c3_bracket_stage_counterexample :
    parse_extraction_response ("items: [1, 2] thanks") = none ∧
    bracket_slice_spec ("items: [1, 2] thanks") = some ("[1, 2]") ∧
    (json_loads ("[1, 2]")).isSome = true := by
  exact ⟨rfl, rfl, rfl⟩

/-- C3 amended: the recovery is layered in exactly two stages — a strict
JSON parse of the whole response, then, on failure, a strict parse of the
stripped interior of the fenced json code block — and the source is
marked failed precisely when both stages fail; there is no
bracket-boundary stage. -/
theorem c3_two_stage_recovery (t : String) :
    (∀ v, json_loads t = some v → parse_extraction_response t = some v) ∧
    (parse_extraction_response t = none ↔
      (json_loads t = none ∧
        ∀ inner, extract_json_block t = some inner → json_loads inner = none)) := by
  have h0 : parse_extraction_response t = (match json_loads t with
      | some w => some w
      | none => (match extract_json_block t with
        | some inner => json_loads inner
        | none => none)) := rfl
  cases hj : json_loads t with
  | some v =>
    rw [hj] at h0
    have hp : parse_extraction_response t = some v := h0
    refine ⟨?_, ?_, ?_⟩
    · intro w hw
      injection hw with hvw
      rw [hp, hvw]
    · intro hn
      rw [hp] at hn
      exact Option.noConfusion hn
    · rintro ⟨hn, -⟩
      exact Option.noConfusion hn
  | none =>
    rw [hj] at h0
    refine ⟨?_, ?_⟩
    · intro w hw
      exact Option.noConfusion hw
    · cases he : extract_json_block t with
      | none =>
        rw [he] at h0
        have hp : parse_extraction_response t = none := h0
        exact ⟨fun _ => ⟨rfl, fun inner hi => Option.noConfusion hi⟩, fun _ => hp⟩
      | some inner =>
        rw [he] at h0
        have hp : parse_extraction_response t = json_loads inner := h0
        constructor
        · intro hn
          rw [hp] at hn
          refine ⟨rfl, fun inner' hi => ?_⟩
          injection hi with hii
          rw [← hii]
          exact hn
        · rintro ⟨-, hall⟩
          rw [hp]
          exact hall inner rfl

/-- Witness for C3 amended on a response with no parseable JSON and no
fenced block. -/
theorem c3_two_stage_recovery_witness :
    parse_extraction_response ("no json at all") = none := by
  refine (c3_two_stage_recovery ("no json at all")).2.mpr ⟨rfl, ?_⟩
  intro inner h
  have he : extract_json_block ("no json at all") = none := rfl
  rw [he] at h
  cases h

/-- Rows of a list of sources distribute over concatenation. -/
theorem items_of_append (xs ys : List SourceDoc) :
    items_of (xs ++ ys) = items_of xs ++ items_of ys := by
  simp [items_of]

/-- Failed identifiers of a list of sources distribute over
concatenation. -/
theorem failed_of_append (xs ys : List SourceDoc) :
    failed_of (xs ++ ys) = failed_of xs ++ failed_of ys := by
  simp [failed_of]

/-- The extraction pass computes exactly the per-source rows in order and
the per-source failed identifiers in order. -/
theorem process_sources_eq (ds : List SourceDoc) :
    process_sources ds = (items_of ds, failed_of ds) := by
  suffices h : ∀ (ds : List SourceDoc) (a : List Json) (b : List String),
      ds.foldl (fun acc d =>
        let r := process_source d
        (acc.fst ++ r.fst, acc.snd ++ (if r.snd then [d.name] else []))) (a, b) =
      (a ++ items_of ds, b ++ failed_of ds) by
    simpa [process_sources] using h ds [] []
  intro ds
  induction ds with
  | nil => intro a b; simp [items_of, failed_of]
  | cons d rest ih =>
    intro a b
    rw [List.foldl_cons, ih]
    simp [items_of, failed_of, List.filterMap_cons]
    cases hs : (process_source d).snd <;> simp [hs]

/-- C4: a source whose response text cannot be parsed by the recovery
chain contributes no rows to the pass, its identifier appears in the
failed list exactly at its position, and all other sources of the pass
are processed exactly as they would be on their own (the pass
continues). -/
theorem c4_failed_source_isolated (pre post : List SourceDoc) (d : SourceDoc)
    (h : parse_extraction_response d.text = none) :
    process_sources (pre ++ d :: post) =
      (items_of pre ++ items_of post, failed_of pre ++ d.name :: failed_of post) := by
  have hps : process_source d = ([], true) := by
    simp [process_source, h]
  rw [process_sources_eq]
  rw [items_of_append, failed_of_append]
  have hic : items_of (d :: post) = items_of post := by
    simp [items_of, hps]
  have hfc : failed_of (d :: post) = d.name :: failed_of post := by
    simp [failed_of, List.filterMap_cons, hps]
  rw [hic, hfc]

/-- An extraction source whose response holds no JSON. -/
def src_bad : SourceDoc := ⟨"quote1.pdf", "no json found"⟩

/-- An extraction source whose response is a JSON array. -/
def src_good : SourceDoc := ⟨"pasted.txt", "[3]"⟩

/-- Witness for C4: the unparseable source is reported and the remaining
source of the pass is still processed. -/
theorem c4_failed_source_isolated_witness :
    process_sources ([] ++ src_bad :: [src_good]) =
      (items_of [] ++ items_of [src_good],
       failed_of [] ++ src_bad.name :: failed_of [src_good]) :=
  c4_failed_source_isolated [] [src_good] src_bad rfl

/-- The comparison used by `sort_items_by` is transitive. -/
theorem sort_key_trans (key : RowCells → String) :
    ∀ a b c : RowCells, decide (key a ≤ key b) = true →
      decide (key b ≤ key c) = true → decide (key a ≤ key c) = true := by
  intro a b c hab hbc
  rw [decide_eq_true_eq] at *
  exact le_trans hab hbc

/-- The comparison used by `sort_items_by` is total. -/
theorem sort_key_total (key : RowCells → String) :
    ∀ a b : RowCells, (decide (key a ≤ key b) || decide (key b ≤ key a)) = true := by
  intro a b
  rcases le_total (key a) (key b) with h | h <;> simp [h]

/-- Stability of the display sort, characterised by filtering: the rows
with any given key value appear in the sorted sequence exactly in their
original relative order. -/
theorem sort_items_filter_eq (key : RowCells → String) (items : List RowCells) (k : String) :
    (sort_items_by key items).filter (fun r => key r == k) =
      items.filter (fun r => key r == k) := by
  set p : RowCells → Bool := fun r => key r == k with hp
  have hpair : List.Pairwise (fun a b => decide (key a ≤ key b) = true) (items.filter p) := by
    have hmem : ∀ r ∈ items.filter p, key r = k := by
      intro r hr
      have h2 := (List.mem_filter.mp hr).2
      rw [hp] at h2
      exact eq_of_beq h2
    apply List.pairwise_of_forall_mem_list
    intro a ha b hb
    rw [decide_eq_true_eq, hmem a ha, hmem b hb]
  have hsub : (items.filter p).Sublist (sort_items_by key items) :=
    List.sublist_mergeSort (sort_key_trans key) (sort_key_total key) hpair
      (List.filter_sublist items)
  have hff : (items.filter p).filter p = items.filter p :=
    List.filter_eq_self.mpr (fun a ha => (List.mem_filter.mp ha).2)
  have hsub2 : (items.filter p).Sublist ((sort_items_by key items).filter p) := by
    have h := hsub.filter p
    rwa [hff] at h
  have hperm : ((sort_items_by key items).filter p).Perm (items.filter p) :=
    (List.mergeSort_perm items (fun a b => decide (key a ≤ key b))).filter p
  exact (hsub2.eq_of_length (hperm.length_eq.symm)).symm

/-- Sorting an already sorted row list leaves it unchanged. -/
theorem sort_items_idem (key : RowCells → String) (items : List RowCells) :
    sort_items_by key (sort_items_by key items) = sort_items_by key items :=
  List.mergeSort_of_sorted
    (List.sorted_mergeSort (sort_key_trans key) (sort_key_total key) items)

/-- C8: the display sorts by type and by supplier are stable (rows with
an equal key keep their original relative order, expressed by filtering
on any key value) and idempotent (sorting the displayed sequence again
reproduces it). -/
theorem c8_sort_stable_idempotent (st : QuoteState) (k : String) :
    (display_df st "Type").filter (fun r => type_key r == k) =
      st.items.filter (fun r => type_key r == k) ∧
    sort_items_by type_key (display_df st "Type") = display_df st "Type" ∧
    (display_df st "Supplier").filter (fun r => supplier_key r == k) =
      st.items.filter (fun r => supplier_key r == k) ∧
    sort_items_by supplier_key (display_df st "Supplier") = display_df st "Supplier" := by
  have hT : display_df st "Type" = sort_items_by type_key st.items := by
    simp [display_df]
  have hS : display_df st "Supplier" = sort_items_by supplier_key st.items := by
    simp [display_df]
  refine ⟨?_, ?_, ?_, ?_⟩
  · rw [hT]; exact sort_items_filter_eq type_key st.items k
  · rw [hT]; exact sort_items_idem type_key st.items
  · rw [hS]; exact sort_items_filter_eq supplier_key st.items k
  · rw [hS]; exact sort_items_idem supplier_key st.items

/-- Inserting at a position within the list is, up to permutation, a
cons. -/
theorem insertIdx_perm_cons (a : Nat) :
    ∀ (n : Nat) (l : List Nat), n ≤ l.length → (l.insertIdx n a).Perm (a :: l) := by
  intro n
  induction n with
  | zero => intro l _; rw [List.insertIdx_zero]
  | succ m ih =>
    intro l hl
    cases l with
    | nil => simp at hl
    | cons b t =>
      rw [List.insertIdx_succ_cons]
      exact (List.Perm.cons b (ih t (by simpa using hl))).trans (List.Perm.swap a b t)

/-- Swapping two entries of a list by a double `set` is a permutation. -/
theorem set_swap_perm (l : List Nat) (i j : Nat)
    (hi : i < l.length) (hj : j < l.length) (hne : i ≠ j) :
    ((l.set i (l.getD j 0)).set j (l.getD i 0)).Perm l := by
  rw [List.getD_eq_getElem l 0 hj, List.getD_eq_getElem l 0 hi]
  rw [List.perm_iff_count]
  intro b
  have hj2 : j < (l.set i l[j]).length := by
    rw [List.length_set]; exact hj
  rw [List.count_set l[i] b (l.set i l[j]) j hj2]
  rw [List.count_set l[j] b l i hi]
  have hgt : (l.set i l[j])[j] = l[j] := by
    rw [List.getElem_set]
    exact if_neg hne
  rw [hgt]
  have hbound : (if (l[i] == b) = true then 1 else 0) ≤ List.count b l := by
    by_cases hib : (l[i] == b) = true
    · rw [if_pos hib]
      exact List.count_pos_iff.mpr (eq_of_beq hib ▸ List.getElem_mem hi)
    · rw [if_neg hib]
      exact Nat.zero_le _
  omega

/-- Erasing an index value from `range n` and decrementing the larger
values renumbers the remaining indices to `range (n - 1)`. -/
theorem range_erase_map_dec (n idx : Nat) (hidx : idx < n) :
    ((List.range n).erase idx).map (fun i => if i < idx then i else i - 1) =
      List.range (n - 1) := by
  have hk : n - idx = (n - idx - 1) + 1 := by omega
  have hsplit : List.range n = List.range idx ++ (idx :: List.range' (idx + 1) (n - idx - 1)) := by
    rw [List.range_eq_range', List.range_eq_range']
    have h1 := List.range'_append 0 idx (n - idx) 1
    rw [Nat.one_mul, Nat.zero_add] at h1
    have h2 : n - idx + idx = n := by omega
    rw [h2] at h1
    rw [hk, List.range'_succ] at h1
    rw [← h1]
  have hnotmem : idx ∉ List.range idx := by
    rw [List.mem_range]
    omega
  rw [hsplit, List.erase_append_right _ hnotmem, List.erase_cons_head, List.map_append]
  have hmap1 : (List.range idx).map (fun i => if i < idx then i else i - 1) = List.range idx := by
    have h := List.map_congr_left (l := List.range idx)
      (f := fun i => if i < idx then i else i - 1) (g := id)
      (fun a ha => if_pos (List.mem_range.mp ha))
    rw [h, List.map_id]
  have hmap2 : (List.range' (idx + 1) (n - idx - 1)).map (fun i => if i < idx then i else i - 1) =
      List.range' idx (n - idx - 1) := by
    rw [List.range'_eq_map_range, List.range'_eq_map_range, List.map_map]
    apply List.map_congr_left
    intro a _
    simp only [Function.comp]
    have hlt : ¬ (idx + 1 + a < idx) := by omega
    rw [if_neg hlt]
    omega
  rw [hmap1, hmap2]
  have h3 := List.range'_append 0 idx (n - idx - 1) 1
  rw [Nat.one_mul, Nat.zero_add] at h3
  rw [← List.range_eq_range'] at h3
  have h4 : n - idx - 1 + idx = n - 1 := by omega
  rw [h4] at h3
  rw [h3, List.range_eq_range']

/-- C10 counterexample: appending one extracted row to a collection whose
manual order is `[1, 0]` resets `row_order` to the identity `[0, 1, 2]`
(because `update_row_order` sees a length mismatch), rather than
extending the existing order to `[1, 0, 2]` as the claim states. -/
theorem c10_append_extends_counterexample :
    (append_items [Json.null] 9 ⟨[rowWithDesc, scenario_row], [1, 0]⟩).row_order = [0, 1, 2] ∧
    ([0, 1, 2] : List Nat) ≠ [1, 0, 2] :=
  ⟨rfl, by decide⟩

/-- C10 amended: `row_order` is always a permutation of
`0 .. items.length - 1`, and every mutating operation that returns a
state preserves this invariant (append does so by resetting `row_order`
to the identity permutation whenever the length changes, not by
extending it; the inserts add the index `n`; delete removes the selected
entry and decrements the larger ones; the moves swap two entries). -/
theorem c10_row_order_invariant (op : QuoteOp) (st st' : QuoteState)
    (hperm : st.row_order.Perm (List.range st.items.length))
    (h : run_op op st = some st') :
    st'.row_order.Perm (List.range st'.items.length) := by
  cases op with
  | append newItems margin =>
    simp only [run_op] at h
    injection h with h
    subst h
    simp only [append_items, update_row_order]
    by_cases hL : st.row_order.length ≠ (st.items ++ newItems.map (row_of_json margin)).length
    · rw [if_pos hL]
      simp
    · rw [if_neg hL]
      push_neg at hL
      have hmn : (st.items ++ newItems.map (row_of_json margin)).length = st.items.length := by
        rw [← hL, hperm.length_eq, List.length_range]
      simp only [hL, Nat.sub_self, List.range'_zero, List.append_nil]
      rw [hmn]
      exact hperm
  | addAbove sel margin =>
    simp only [run_op, add_above] at h
    split at h
    case isFalse => exact Option.noConfusion h
    case isTrue hsel =>
      injection h with h
      subst h
      have hlen : (st.items.take (st.row_order.getD sel 0) ++ [default_row margin] ++
          st.items.drop (st.row_order.getD sel 0)).length = st.items.length + 1 := by
        simp only [List.length_append, List.length_take, List.length_drop,
          List.length_cons, List.length_nil]
        omega
      simp only [hlen, Nat.add_sub_cancel]
      refine (insertIdx_perm_cons st.items.length sel st.row_order (le_of_lt hsel)).trans ?_
      refine (hperm.cons st.items.length).trans ?_
      rw [List.range_succ]
      exact (List.perm_append_singleton _ _).symm
  | addBelow sel margin =>
    simp only [run_op, add_below] at h
    split at h
    case isFalse => exact Option.noConfusion h
    case isTrue hsel =>
      injection h with h
      subst h
      have hlen : (st.items.take (st.row_order.getD sel 0 + 1) ++ [default_row margin] ++
          st.items.drop (st.row_order.getD sel 0 + 1)).length = st.items.length + 1 := by
        simp only [List.length_append, List.length_take, List.length_drop,
          List.length_cons, List.length_nil]
        omega
      simp only [hlen, Nat.add_sub_cancel]
      have hsel1 : sel + 1 ≤ st.row_order.length := hsel
      refine (insertIdx_perm_cons st.items.length (sel + 1) st.row_order hsel1).trans ?_
      refine (hperm.cons st.items.length).trans ?_
      rw [List.range_succ]
      exact (List.perm_append_singleton _ _).symm
  | deleteRow sel =>
    simp only [run_op, delete_row] at h
    split at h
    case isFalse => exact Option.noConfusion h
    case isTrue hsel =>
      split at h
      case isFalse => exact Option.noConfusion h
      case isTrue hidx =>
        injection h with h
        subst h
        have hgd : st.row_order.getD sel 0 = st.row_order[sel] :=
          List.getD_eq_getElem _ _ hsel
        have hlen : (st.items.eraseIdx (st.row_order.getD sel 0)).length =
            st.items.length - 1 := by
          rw [List.length_eraseIdx, if_pos hidx]
        have h1 : (st.row_order.erase (st.row_order.getD sel 0)).Perm
            (st.row_order.eraseIdx sel) := by
          rw [hgd]
          exact List.erase_getElem hsel
        have h2 : (st.row_order.erase (st.row_order.getD sel 0)).Perm
            ((List.range st.items.length).erase (st.row_order.getD sel 0)) :=
          hperm.erase _
        have h3 := (h1.symm.trans h2).map (fun i => if i < st.row_order.getD sel 0 then i else i - 1)
        rw [range_erase_map_dec st.items.length (st.row_order.getD sel 0) hidx] at h3
        rw [hlen]
        exact h3
  | moveUp sel =>
    simp only [run_op, move_up] at h
    split at h
    case isFalse =>
      injection h with h
      subst h
      exact hperm
    case isTrue hpos =>
      split at h
      case isFalse => exact Option.noConfusion h
      case isTrue hsel =>
        injection h with h
        subst h
        have hi : sel - 1 < st.row_order.length := by omega
        have hne : sel - 1 ≠ sel := by omega
        exact (set_swap_perm st.row_order (sel - 1) sel hi hsel hne).trans hperm
  | moveDown sel =>
    simp only [run_op, move_down] at h
    split at h
    case isTrue hsel =>
      injection h with h
      subst h
      have hj : sel < st.row_order.length := by omega
      have hi : sel + 1 < st.row_order.length := by omega
      have hne : sel + 1 ≠ sel := by omega
      exact (set_swap_perm st.row_order (sel + 1) sel hi hj hne).trans hperm
    case isFalse =>
      injection h with h
      subst h
      exact hperm
  | applyMargin v =>
    simp only [run_op] at h
    injection h with h
    subst h
    obtain ⟨its, ro⟩ := st
    cases its with
    | nil => exact hperm
    | cons a l =>
      simpa [apply_margin] using hperm

/-- Witness for C10 amended: a move-up on a two-row collection with
reversed manual order preserves the permutation invariant. -/
theorem c10_row_order_invariant_witness :
    (QuoteState.row_order ⟨[rowWithDesc, scenario_row], [0, 1]⟩).Perm
      (List.range (QuoteState.items ⟨[rowWithDesc, scenario_row], [0, 1]⟩).length) :=
  c10_row_order_invariant (QuoteOp.moveUp 1) ⟨[rowWithDesc, scenario_row], [1, 0]⟩
    ⟨[rowWithDesc, scenario_row], [0, 1]⟩ (by decide) rfl
